import Mathlib

/-!
Shallow embedding of the auslaw-mcp repository core:
the AustLII search component (src/services/austlii.ts, fuller variant)
and the document-acquisition component (fetchDocumentText).
Strings are modelled as lists of characters so that every operation is
executable and provable by structural induction.
-/

set_option maxRecDepth 10000

abbrev Str := List Char

/-- Character class of the JavaScript regular-expression class backslash-s
and of String.prototype.trim: ASCII whitespace plus the Unicode space
separators, line separators, NBSP, NEL-adjacent spaces and the BOM. -/
def jsSpace (c : Char) : Bool :=
  c = ' ' || c = '\t' || c = '\n' || c = '\r' ||
  c.val = 11 || c.val = 12 || c.val = 160 || c.val = 0x1680 ||
  (0x2000 ≤ c.val && c.val ≤ 0x200a) || c.val = 0x2028 || c.val = 0x2029 ||
  c.val = 0x202f || c.val = 0x205f || c.val = 0x3000 || c.val = 0xfeff

/-- Character class of the regular-expression class backslash-d (ASCII digit). -/
def digitB (c : Char) : Bool := '0' ≤ c && c ≤ '9'

/-- Character class of the regular-expression class A-Z (ASCII uppercase). -/
def upperB (c : Char) : Bool := 'A' ≤ c && c ≤ 'Z'

/-- Model of JavaScript String.prototype.trim: strip leading and trailing
whitespace. -/
def jsTrim (s : Str) : Str :=
  ((s.dropWhile jsSpace).reverse.dropWhile jsSpace).reverse

/-- Model of JavaScript String.prototype.startsWith: does s begin with p? -/
def startsWithStr : Str → Str → Bool
  | _, [] => true
  | [], _ :: _ => false
  | c :: cs, p :: ps => c == p && startsWithStr cs ps

/-- Model of JavaScript String.prototype.includes: does s contain p as a
contiguous substring? -/
def strIncludes : Str → Str → Bool
  | [], p => startsWithStr [] p
  | c :: t, p => startsWithStr (c :: t) p || strIncludes t p

/-- Model of JavaScript String.prototype.endsWith: does s end with p? -/
def endsWithStr (s p : Str) : Bool := startsWithStr s.reverse p.reverse

/-- Model of JavaScript String.prototype.toLowerCase restricted to the ASCII
range, which is all the sources compare (URL path segments and the
jurisdiction codes). -/
def lowerStr (s : Str) : Str := s.map Char.toLower

/-- Propositional form of substring containment: p occurs contiguously
inside s. -/
def substrOf (p s : Str) : Prop := ∃ pre suf, s = pre ++ p ++ suf

theorem startsWithStr_iff (p : Str) : ∀ s : Str, startsWithStr s p = true ↔ ∃ t, s = p ++ t := by
  induction p with
  | nil =>
    intro s
    simp [startsWithStr]
  | cons c cs ih =>
    intro s
    cases s with
    | nil =>
      simp [startsWithStr]
    | cons b bs =>
      simp only [startsWithStr, Bool.and_eq_true, beq_iff_eq, ih]
      constructor
      · rintro ⟨hb, t, ht⟩
        exact ⟨t, by simp [hb, ht]⟩
      · rintro ⟨t, ht⟩
        simp only [List.cons_append, List.cons.injEq] at ht
        exact ⟨ht.1, t, ht.2⟩

theorem strIncludes_iff (p : Str) : ∀ s : Str, strIncludes s p = true ↔ substrOf p s := by
  intro s
  induction s with
  | nil =>
    simp only [strIncludes, startsWithStr_iff, substrOf]
    constructor
    · rintro ⟨t, ht⟩
      exact ⟨[], t, by simpa using ht⟩
    · rintro ⟨pre, suf, h⟩
      have hpre : pre = [] := by
        cases pre with
        | nil => rfl
        | cons a l => simp at h
      subst hpre
      exact ⟨suf, by simpa using h⟩
  | cons c t ih =>
    simp only [strIncludes, Bool.or_eq_true, startsWithStr_iff, ih, substrOf]
    constructor
    · rintro (⟨u, hu⟩ | ⟨pre, suf, h⟩)
      · exact ⟨[], u, by simpa using hu⟩
      · exact ⟨c :: pre, suf, by simp [h]⟩
    · rintro ⟨pre, suf, h⟩
      cases pre with
      | nil =>
        exact Or.inl ⟨suf, by simpa using h⟩
      | cons a l =>
        simp only [List.cons_append, List.cons.injEq] at h
        exact Or.inr ⟨l, suf, by simp [h.2]⟩

theorem substrOf_append_of_left {p s : Str} (t : Str) (h : substrOf p s) : substrOf p (s ++ t) := by
  obtain ⟨pre, suf, hs⟩ := h
  exact ⟨pre, suf ++ t, by simp [hs]⟩

theorem substrOf_append_of_right {p s : Str} (t : Str) (h : substrOf p s) : substrOf p (t ++ s) := by
  obtain ⟨pre, suf, hs⟩ := h
  exact ⟨t ++ pre, suf, by simp [hs]⟩

/-! ## AustLII search component (src/services/austlii.ts, fuller variant) -/

/-- Document type requested by a search: the TypeScript union
"case" | "legislation". -/
inductive DocKind
  | caseDoc
  | legislationDoc
deriving DecidableEq, Repr

/-- Jurisdiction option enum of SearchOptions (never read by the service). -/
inductive JurisdictionOpt
  | cth
  | vic
  | federal
  | other
deriving DecidableEq, Repr

/-- Sort mode enum registered by the tool layer (src/index.ts sortByEnum);
the handlers pass it through to searchAustLii but the service never reads
it. -/
inductive SortMode
  | relevance
  | date
  | auto
deriving DecidableEq, Repr

/-- SearchOptions of src/services/austlii.ts, extended with the sortBy field
that the src/index.ts handlers include in the object they pass to
searchAustLii. -/
structure SearchOptions where
  jurisdiction : Option JurisdictionOpt := none
  limit : Option Nat := none
  type : DocKind
  sortBy : Option SortMode := none
deriving DecidableEq, Repr

/-- SearchResult interface of src/services/austlii.ts. -/
structure SearchResult where
  title : Str
  citation : Option Str
  neutralCitation : Option Str
  url : Str
  source : Str
  summary : Option Str
  jurisdiction : Option Str
  year : Option Str
  type : DocKind
deriving DecidableEq, Repr

/-- SearchParams interface of src/services/austlii.ts. -/
structure SearchParams where
  query : Str
  meta : Str
  mask_path : Option Str
deriving DecidableEq, Repr

def austliiMeta : Str := "/austlii".data

/-- buildSearchParams of src/services/austlii.ts: uses the /austlii meta
which searches all Australian databases; mask_path stays undefined and the
options argument is never consulted. -/
def buildSearchParams (query : Str) (options : SearchOptions) : SearchParams :=
  { query := query, meta := austliiMeta, mask_path := none }

def kMethod : Str := "method".data
def kBoolean : Str := "boolean".data
def kQuery : Str := "query".data
def kMeta : Str := "meta".data
def kResults : Str := "results".data
def kView : Str := "view".data
def kDate : Str := "date".data

/-- Query parameters that searchAustLii sets on the search URL, in the order
of the searchParams.set calls: method=boolean, the query, the meta scope,
the requested result count, and view=date (the code sorts by date
unconditionally). -/
def searchUrlParams (query : Str) (options : SearchOptions) : List (Str × Str) :=
  let searchParams := buildSearchParams query options
  let limit := (options.limit).getD 10
  [ (kMethod, kBoolean),
    (kQuery, searchParams.query),
    (kMeta, searchParams.meta),
    (kResults, (toString limit).data),
    (kView, kDate) ]

/-- Bracketed-year head of the citation pattern: an opening bracket,
exactly four digits and a closing bracket at the very start of s. On
success the four digits and the remainder of s are returned. -/
def splitYear : Str → Option (Str × Str)
  | c0 :: d1 :: d2 :: d3 :: d4 :: c5 :: rest =>
    if c0 = '[' ∧ c5 = ']' ∧ (digitB d1 && digitB d2 && digitB d3 && digitB d4) = true
    then some ([d1, d2, d3, d4], rest) else none
  | _ => none

/-- Attempt to match the citation regular expression
bracket, four digits, bracket, optional whitespace, one or more uppercase
letters, optional whitespace, one or more digits
at the very start of s. Greedy matching needs no backtracking here because
the digit, uppercase and whitespace character classes are pairwise
disjoint. On success the full matched text and the four-digit year group
are returned. -/
def matchCitationAt (s : Str) : Option (Str × Str) :=
  match splitYear s with
  | none => none
  | some (y, rest) =>
    let ws1 := rest.takeWhile jsSpace
    let r1 := rest.dropWhile jsSpace
    let code := r1.takeWhile upperB
    let r2 := r1.dropWhile upperB
    if code = [] then none
    else
      let ws2 := r2.takeWhile jsSpace
      let r3 := r2.dropWhile jsSpace
      let num := r3.takeWhile digitB
      if num = [] then none
      else
        some (('[' :: y) ++ (']' :: (ws1 ++ code ++ ws2 ++ num)), y)

/-- Leftmost match of the citation pattern inside a title, as computed by
the JavaScript title.match call in searchAustLii. -/
def findCitation : Str → Option (Str × Str)
  | [] => none
  | c :: t =>
    match matchCitationAt (c :: t) with
    | some r => some r
    | none => findCitation t

def auCasesSeg : Str := "/au/cases/".data
def slashChar : Str := ['/']

/-- Alternatives of the jurisdiction capture group, in the order the
regular expression lists them. -/
def jurisdictionCodes : List Str :=
  ["cth".data, "vic".data, "nsw".data, "qld".data, "sa".data,
   "wa".data, "tas".data, "nt".data, "act".data]

/-- Attempt to match the case-insensitive jurisdiction pattern
/au/cases/(cth|vic|nsw|qld|sa|wa|tas|nt|act)/ at the start of an
already-lowercased URL, returning the captured code. -/
def matchJurisAt (s : Str) : Option Str :=
  if startsWithStr s auCasesSeg then
    (jurisdictionCodes.filter
      (fun code => startsWithStr (s.drop 10) (code ++ slashChar))).head?
  else none

/-- Leftmost match of the jurisdiction pattern in a lowercased URL. -/
def findJuris : Str → Option Str
  | [] => none
  | c :: t =>
    match matchJurisAt (c :: t) with
    | some r => some r
    | none => findJuris t

/-- Jurisdiction extraction of searchAustLii: the case-insensitive regular
expression over the URL, with the captured group lowercased. Matching the
lowercase pattern against the lowercased URL models the i flag, and the
captured group is then already lowercase. -/
def extractJurisdiction (url : Str) : Option Str := findJuris (lowerStr url)

/-- One listing entry as delivered by the HTML parser (cheerio is an
external collaborator): the text of the first link in the list item, its
href attribute when present, and the text of a small annotation element
when present. -/
structure Entry where
  title : Str
  href : Option Str := none
  summary : Option Str := none
deriving DecidableEq, Repr

def httpPre : Str := "http".data
def austliiBase : Str := "http://classic.austlii.edu.au".data
def journalsSeg : Str := "/journals/".data
def casesSeg : Str := "/cases/".data
def legisSeg : Str := "/legis/".data
def austliiSourceName : Str := "austlii".data

/-- URL as searchAustLii computes it for one entry: the href attribute or
the empty string, prefixed with the classic AustLII base when it is
non-empty and does not already start with http. -/
def entryUrl (e : Entry) : Str :=
  let url0 := (e.href).getD []
  if url0 ≠ [] ∧ startsWithStr url0 httpPre = false then austliiBase ++ url0 else url0

/-- Filtering stage of searchAustLii, mirroring the three early returns:
journal articles are always skipped; a case search keeps only URLs with a
case-database segment; a legislation search keeps only URLs with a
legislation-database segment. -/
def passesFilters (options : SearchOptions) (url : Str) : Bool :=
  if strIncludes url journalsSeg then false
  else if options.type = DocKind.caseDoc ∧ strIncludes url casesSeg = false then false
  else if options.type = DocKind.legislationDoc ∧ strIncludes url legisSeg = false then false
  else true

/-- Record construction of searchAustLii for one surviving entry. -/
def mkResult (options : SearchOptions) (title url : Str) (summary : Option Str) : SearchResult :=
  let citationMatch := findCitation title
  { title := title
    citation := none
    neutralCitation := citationMatch.map Prod.fst
    url := url
    source := austliiSourceName
    summary := summary
    jurisdiction := extractJurisdiction url
    year := citationMatch.map Prod.snd
    type := options.type }

/-- Per-entry body of the each loop in searchAustLii: trim the link text,
absolutise the href, require both non-empty, filter by URL, then build the
record. -/
def processEntry (options : SearchOptions) (e : Entry) : Option SearchResult :=
  let title := jsTrim e.title
  let url := entryUrl e
  if title ≠ [] ∧ url ≠ [] then
    if passesFilters options url then
      some (mkResult options title url ((e.summary).map jsTrim))
    else none
  else none

/-- The whole parsing loop of searchAustLii over the listing entries, kept
in listing order. -/
def parseResults (options : SearchOptions) (entries : List Entry) : List SearchResult :=
  entries.filterMap (processEntry options)

/-- Transport failure reported by the HTTP client. -/
structure AxiosError where
  message : Str
deriving DecidableEq, Repr

def searchFailedPre : Str := "AustLII search failed: ".data

/-- searchAustLii of src/services/austlii.ts, with the network transport as
an explicit argument: a failed GET is caught and rethrown wrapped with the
AustLII search failed prefix, while a retrieved listing is parsed (the
HTML parser is total, so parsing never fails) and the results are
truncated to limit, defaulting to 10. -/
def searchAustLii (query : Str) (options : SearchOptions)
    (response : Except AxiosError (List Entry)) : Except Str (List SearchResult) :=
  let limit := (options.limit).getD 10
  match response with
  | Except.error e => Except.error (searchFailedPre ++ e.message)
  | Except.ok entries => Except.ok ((parseResults options entries).take limit)

/-! ## Document acquisition component (fetchDocumentText) -/

/-- FetchResponse interface of the document fetcher
(src/services/fetcher.ts declares it; the stub under src returns an empty
one). The contentType is a plain string in the source. -/
structure FetchResponse where
  text : Str
  contentType : Str
  sourceUrl : Str
  ocrUsed : Bool
  metadata : Option (List (Str × Str)) := none
deriving DecidableEq, Repr

/-- Error kinds of the document-acquisition component. -/
inductive FetchError
  | documentFetchError (message : Str)
  | ocrError (message : Str)
deriving DecidableEq, Repr

/-- Modelled from the spec: outcome of the external collaborators that the
full fetcher implementation (src/services/fetcher.ts) consults — the HTTP
transport (reachable means a 2xx response), the declared content type, the
text the HTML extraction path yields, the text the direct PDF text-layer
extraction yields, and the OCR subprocess outcome (per-page recognized
text, or a failure). The full fetcher is absent from the sources; only the
stub scaffold is present. -/
structure FetchWorld where
  reachable : Bool
  declaredPdf : Bool
  htmlText : Str
  pdfDirectText : Str
  ocrResult : Except Str (List Str)
deriving Repr

def httpSchemePre : Str := "http://".data
def httpsSchemePre : Str := "https://".data

/-- Modelled from the spec: a well-formed absolute URL — an http or https
scheme followed by a non-empty remainder. -/
def isAbsoluteUrl (url : Str) : Bool :=
  (startsWithStr url httpSchemePre && decide (7 < url.length)) ||
  (startsWithStr url httpsSchemePre && decide (8 < url.length))

/-- Modelled from the spec: character count after whitespace normalization —
the number of non-whitespace characters of the extracted text. -/
def nonWsCount (s : Str) : Nat := (s.filter (fun c => jsSpace c = false)).length

/-- Modelled from the spec: the minimum-sufficiency threshold for the
direct PDF text layer, a small fixed floor on the order of one hundred
characters. -/
def ocrMinTextChars : Nat := 100

/-- Modelled from the spec: concatenation of per-page OCR output in page
order. -/
def joinPages (pages : List Str) : Str := pages.foldr (fun a b => a ++ b) []

def pdfSuffix : Str := ".pdf".data
def htmlTypeStr : Str := "html".data
def pdfTypeStr : Str := "pdf".data
def badUrlMsg : Str := "Invalid document URL".data
def unreachableMsg : Str := "Failed to fetch document".data
def emptyOcrMsg : Str := "OCR produced no text".data
def citationKey : Str := "citation".data

/-- Metadata detected within the extracted body: a citation pattern found
inline, when present. -/
def detectMetadata (text : Str) : Option (List (Str × Str)) :=
  match findCitation text with
  | some m => some [(citationKey, m.1)]
  | none => none

/-- Modelled from the spec: fetchDocumentText of src/services/fetcher.ts,
whose full implementation is absent from the sources (only the stub
scaffold remains). Following section 4.2 of the design: reject a malformed
URL with a DocumentFetchError; an unreachable resource or non-2xx response
is a DocumentFetchError; classify as pdf when the declared type or the URL
suffix indicates PDF, otherwise html; on the PDF path run OCR when the
direct text layer is below the sufficiency threshold after whitespace
normalization (OCR failure, or an OCR result with no text at all, surfaces
as an OcrError rather than silently degrading to empty text); echo the
requested URL unchanged as sourceUrl. -/
def fetchDocumentText (url : Str) (w : FetchWorld) : Except FetchError FetchResponse :=
  if isAbsoluteUrl url = false then Except.error (FetchError.documentFetchError badUrlMsg)
  else if w.reachable = false then Except.error (FetchError.documentFetchError unreachableMsg)
  else if w.declaredPdf || endsWithStr (lowerStr url) pdfSuffix then
    if nonWsCount w.pdfDirectText < ocrMinTextChars then
      match w.ocrResult with
      | Except.error m => Except.error (FetchError.ocrError m)
      | Except.ok pages =>
        let t := joinPages pages
        if t = [] then Except.error (FetchError.ocrError emptyOcrMsg)
        else Except.ok
          { text := t, contentType := pdfTypeStr, sourceUrl := url,
            ocrUsed := true, metadata := detectMetadata t }
    else Except.ok
      { text := w.pdfDirectText, contentType := pdfTypeStr, sourceUrl := url,
        ocrUsed := false, metadata := detectMetadata w.pdfDirectText }
  else Except.ok
    { text := w.htmlText, contentType := htmlTypeStr, sourceUrl := url,
      ocrUsed := false, metadata := detectMetadata w.htmlText }

/-! ## Supporting lemmas -/

theorem head?_eq_some_mem {α : Type} {l : List α} {a : α} (h : l.head? = some a) : a ∈ l := by
  cases l with
  | nil => simp at h
  | cons b t =>
    simp only [List.head?] at h
    injection h with h
    subst h
    exact List.mem_cons_self b t

theorem searchAustLii_ok_eq {query : Str} {options : SearchOptions} {entries : List Entry}
    {rs : List SearchResult}
    (h : searchAustLii query options (Except.ok entries) = Except.ok rs) :
    rs = (parseResults options entries).take ((options.limit).getD 10) := by
  simp only [searchAustLii, Except.ok.injEq] at h
  exact h.symm

theorem mem_parseResults {options : SearchOptions} {entries : List Entry} {r : SearchResult}
    (h : r ∈ parseResults options entries) :
    ∃ e ∈ entries, processEntry options e = some r := by
  simpa [parseResults, List.mem_filterMap] using h

theorem mem_search_ok {query : Str} {options : SearchOptions} {entries : List Entry}
    {rs : List SearchResult} {r : SearchResult}
    (hok : searchAustLii query options (Except.ok entries) = Except.ok rs)
    (hr : r ∈ rs) :
    ∃ e ∈ entries, processEntry options e = some r := by
  have hrs := searchAustLii_ok_eq hok
  subst hrs
  exact mem_parseResults (List.mem_of_mem_take hr)

theorem processEntry_eq_some {options : SearchOptions} {e : Entry} {r : SearchResult}
    (h : processEntry options e = some r) :
    jsTrim e.title ≠ [] ∧ entryUrl e ≠ [] ∧ passesFilters options (entryUrl e) = true ∧
      r = mkResult options (jsTrim e.title) (entryUrl e) ((e.summary).map jsTrim) := by
  simp only [processEntry] at h
  split_ifs at h with h1 h2
  · injection h with h
    exact ⟨h1.1, h1.2, h2, h.symm⟩

theorem passesFilters_no_journals {options : SearchOptions} {url : Str}
    (h : passesFilters options url = true) : strIncludes url journalsSeg = false := by
  simp only [passesFilters] at h
  split_ifs at h with h1 h2 h3
  exact Bool.not_eq_true (strIncludes url journalsSeg) |>.mp (by simpa using h1)

theorem passesFilters_case {options : SearchOptions} {url : Str}
    (h : passesFilters options url = true) (hk : options.type = DocKind.caseDoc) :
    strIncludes url casesSeg = true := by
  simp only [passesFilters] at h
  split_ifs at h with h1 h2 h3
  by_contra hc
  exact h2 ⟨hk, by simpa using hc⟩

theorem passesFilters_legis {options : SearchOptions} {url : Str}
    (h : passesFilters options url = true) (hk : options.type = DocKind.legislationDoc) :
    strIncludes url legisSeg = true := by
  simp only [passesFilters] at h
  split_ifs at h with h1 h2 h3
  by_contra hc
  exact h3 ⟨hk, by simpa using hc⟩

def austliiBaseRest : Str := "://classic.austlii.edu.au".data

theorem austliiBase_decomp : austliiBase = httpPre ++ austliiBaseRest := by decide

theorem entryUrl_startsWith_http {e : Entry} (h : entryUrl e ≠ []) :
    startsWithStr (entryUrl e) httpPre = true := by
  revert h
  simp only [entryUrl]
  split_ifs with h1
  · intro h
    rw [(startsWithStr_iff httpPre (austliiBase ++ (e.href).getD []))]
    exact ⟨austliiBaseRest ++ (e.href).getD [], by rw [austliiBase_decomp, List.append_assoc]⟩
  · intro h
    rw [not_and_or] at h1
    rcases h1 with h1 | h1
    · exact absurd (by simpa using h1) h
    · simpa using h1

theorem splitYear_eq_some {s y rest : Str} (h : splitYear s = some (y, rest)) :
    s = ('[' :: y) ++ (']' :: rest) ∧ y.length = 4 ∧ ∀ c ∈ y, digitB c = true := by
  match s, h with
  | c0 :: d1 :: d2 :: d3 :: d4 :: c5 :: r, h => ?_
  simp only [splitYear] at h
  split_ifs at h with hc
  simp only [Option.some.injEq, Prod.mk.injEq] at h
  obtain ⟨hc0, hc5, hd⟩ := hc
  simp only [Bool.and_eq_true] at hd
  obtain ⟨hy, hrest⟩ := h
  subst hc0 hc5 hy hrest
  refine ⟨rfl, rfl, ?_⟩
  intro c hcmem
  simp only [List.mem_cons, List.not_mem_nil, or_false] at hcmem
  rcases hcmem with rfl | rfl | rfl | rfl
  · exact hd.1.1.1
  · exact hd.1.1.2
  · exact hd.1.2
  · exact hd.2

theorem matchCitationAt_eq_some {s m y : Str} (h : matchCitationAt s = some (m, y)) :
    ∃ ws1 code ws2 num rest,
      s = m ++ rest ∧
      m = ('[' :: y) ++ (']' :: (ws1 ++ code ++ ws2 ++ num)) ∧
      y.length = 4 ∧ (∀ c ∈ y, digitB c = true) ∧
      (∀ c ∈ ws1, jsSpace c = true) ∧
      code ≠ [] ∧ (∀ c ∈ code, upperB c = true) ∧
      (∀ c ∈ ws2, jsSpace c = true) ∧
      num ≠ [] ∧ (∀ c ∈ num, digitB c = true) := by
  simp only [matchCitationAt] at h
  cases hs : splitYear s with
  | none => rw [hs] at h; exact absurd h (by simp)
  | some p =>
    obtain ⟨y0, rest0⟩ := p
    rw [hs] at h
    simp only at h
    split_ifs at h with hcode hnum
    simp only [Option.some.injEq, Prod.mk.injEq] at h
    obtain ⟨h1, h2⟩ := h
    subst h2
    obtain ⟨hsrest, hylen, hydig⟩ := splitYear_eq_some hs
    refine ⟨rest0.takeWhile jsSpace,
      (rest0.dropWhile jsSpace).takeWhile upperB,
      ((rest0.dropWhile jsSpace).dropWhile upperB).takeWhile jsSpace,
      (((rest0.dropWhile jsSpace).dropWhile upperB).dropWhile jsSpace).takeWhile digitB,
      (((rest0.dropWhile jsSpace).dropWhile upperB).dropWhile jsSpace).dropWhile digitB,
      ?_, h1.symm, hylen, hydig,
      fun c hc => List.mem_takeWhile_imp hc,
      hcode,
      fun c hc => List.mem_takeWhile_imp hc,
      fun c hc => List.mem_takeWhile_imp hc,
      hnum,
      fun c hc => List.mem_takeWhile_imp hc⟩
    rw [hsrest, ← h1]
    simp only [List.cons_append, List.append_assoc, List.nil_append, List.cons.injEq, true_and]
    rw [List.takeWhile_append_dropWhile, List.takeWhile_append_dropWhile,
      List.takeWhile_append_dropWhile, List.takeWhile_append_dropWhile]

theorem findCitation_eq_some {m y : Str} : ∀ {s : Str}, findCitation s = some (m, y) →
    substrOf m s ∧
    (∃ ws1 code ws2 num,
      m = ('[' :: y) ++ (']' :: (ws1 ++ code ++ ws2 ++ num)) ∧
      y.length = 4 ∧ (∀ c ∈ y, digitB c = true) ∧
      (∀ c ∈ ws1, jsSpace c = true) ∧
      code ≠ [] ∧ (∀ c ∈ code, upperB c = true) ∧
      (∀ c ∈ ws2, jsSpace c = true) ∧
      num ≠ [] ∧ (∀ c ∈ num, digitB c = true)) := by
  intro s
  induction s with
  | nil => intro h; exact absurd h (by simp [findCitation])
  | cons c t ih =>
    intro h
    simp only [findCitation] at h
    cases hm : matchCitationAt (c :: t) with
    | some r =>
      rw [hm] at h
      simp only at h
      injection h with h
      subst h
      obtain ⟨ws1, code, ws2, num, rest, hseq, hshape, h4, hdig, hws1, hc, hup, hws2, hn, hnd⟩ :=
        matchCitationAt_eq_some hm
      exact ⟨⟨[], rest, by simpa using hseq⟩,
        ws1, code, ws2, num, hshape, h4, hdig, hws1, hc, hup, hws2, hn, hnd⟩
    | none =>
      rw [hm] at h
      simp only at h
      obtain ⟨hsub, hrest⟩ := ih h
      exact ⟨substrOf_append_of_right [c] hsub, hrest⟩

theorem matchJurisAt_eq_some {s : Str} {j : Str} (h : matchJurisAt s = some j) :
    j ∈ jurisdictionCodes ∧ ∃ t, s = (auCasesSeg ++ j ++ slashChar) ++ t := by
  simp only [matchJurisAt] at h
  split_ifs at h with h1
  · have hj := head?_eq_some_mem h
    rw [List.mem_filter] at hj
    obtain ⟨hmem, hpre⟩ := hj
    obtain ⟨t0, ht0⟩ := (startsWithStr_iff auCasesSeg s).mp h1
    have hdrop : s.drop 10 = t0 := by
      rw [ht0]
      have hlen : auCasesSeg.length = 10 := by decide
      rw [← hlen, List.drop_left]
    obtain ⟨u, hu⟩ := (startsWithStr_iff (j ++ slashChar) (s.drop 10)).mp hpre
    rw [hdrop] at hu
    exact ⟨hmem, u, by rw [ht0, hu]; simp [List.append_assoc]⟩

theorem findJuris_eq_some {j : Str} : ∀ {s : Str}, findJuris s = some j →
    j ∈ jurisdictionCodes ∧ substrOf (auCasesSeg ++ j ++ slashChar) s := by
  intro s
  induction s with
  | nil => intro h; exact absurd h (by simp [findJuris])
  | cons c t ih =>
    intro h
    simp only [findJuris] at h
    cases hm : matchJurisAt (c :: t) with
    | some r =>
      rw [hm] at h
      simp only at h
      injection h with h
      subst h
      obtain ⟨hmem, u, hu⟩ := matchJurisAt_eq_some hm
      exact ⟨hmem, [], u, by simpa using hu⟩
    | none =>
      rw [hm] at h
      simp only at h
      obtain ⟨hmem, hsub⟩ := ih h
      exact ⟨hmem, substrOf_append_of_right [c] hsub⟩

theorem extractJurisdiction_eq_some {url j : Str} (h : extractJurisdiction url = some j) :
    j ∈ jurisdictionCodes ∧
      strIncludes (lowerStr url) (auCasesSeg ++ j ++ slashChar) = true := by
  obtain ⟨hmem, hsub⟩ := findJuris_eq_some h
  exact ⟨hmem, (strIncludes_iff (auCasesSeg ++ j ++ slashChar) (lowerStr url)).mpr hsub⟩

theorem mkResult_proj (options : SearchOptions) (title url : Str) (summary : Option Str) :
    (mkResult options title url summary).title = title ∧
    (mkResult options title url summary).url = url ∧
    (mkResult options title url summary).type = options.type ∧
    (mkResult options title url summary).neutralCitation = (findCitation title).map Prod.fst ∧
    (mkResult options title url summary).year = (findCitation title).map Prod.snd ∧
    (mkResult options title url summary).jurisdiction = extractJurisdiction url := by
  exact ⟨rfl, rfl, rfl, rfl, rfl, rfl⟩

theorem searchAustLii_ok_inv {query : Str} {options : SearchOptions}
    {response : Except AxiosError (List Entry)} {rs : List SearchResult}
    (h : searchAustLii query options response = Except.ok rs) :
    ∃ entries, response = Except.ok entries ∧
      rs = (parseResults options entries).take ((options.limit).getD 10) := by
  cases response with
  | error e => exact absurd h (by simp [searchAustLii])
  | ok entries => exact ⟨entries, rfl, searchAustLii_ok_eq h⟩

theorem mem_search_ok_inv {query : Str} {options : SearchOptions}
    {response : Except AxiosError (List Entry)} {rs : List SearchResult} {r : SearchResult}
    (hok : searchAustLii query options response = Except.ok rs) (hr : r ∈ rs) :
    ∃ e, processEntry options e = some r := by
  obtain ⟨entries, hresp, hrs⟩ := searchAustLii_ok_inv hok
  subst hrs
  obtain ⟨e, he, hpe⟩ := mem_parseResults (List.mem_of_mem_take hr)
  exact ⟨e, hpe⟩

/-! ## Concrete fixtures used by witnesses and counterexamples -/

def maboQuery : Str := "Mabo v Queensland".data
def topicQuery : Str := "negligence duty of care".data
def legQuery : Str := "native title".data

def wCaseOpts : SearchOptions :=
  { type := DocKind.caseDoc, sortBy := some SortMode.auto }

def wLegisOpts : SearchOptions :=
  { type := DocKind.legislationDoc }

def wEntry : Entry :=
  { title := " Mabo v Queensland (No 2) [1992] HCA 23 ".data
    href := some "/au/cases/cth/HCA/1992/23.html".data
    summary := some "landmark native title case".data }

/-- Record that processing wEntry under a case search produces. -/
def wResult : SearchResult :=
  mkResult wCaseOpts (jsTrim wEntry.title) (entryUrl wEntry) ((wEntry.summary).map jsTrim)

/-- Listing entry whose legislation-database URL also happens to contain a
case-database jurisdiction segment. -/
def wLegisEntry : Entry :=
  { title := "Native Title Act 1993".data
    href := some "/au/legis/cth/au/cases/vic/consol_act/nta1993.html".data }

/-- Record that processing wLegisEntry under a legislation search produces. -/
def wLegisResult : SearchResult :=
  mkResult wLegisOpts (jsTrim wLegisEntry.title) (entryUrl wLegisEntry) none

def vicStr : Str := "vic".data

def wAxiosError : AxiosError := { message := "timeout of 15000ms exceeded".data }

/-! ## Claims -/

/-- Claim C1. The claim reads: for every search call with sortMode auto,
the sort directive sent to the index is relevance when the query matches a
case-name pattern and date otherwise; with sortMode date the request asks
for reverse-chronological ordering and with sortMode relevance it asks for
relevance ordering. The code refutes this: searchAustLii hardcodes the
view parameter to date and never reads the sortBy option, so even at the
documented failing input, the query Mabo v Queensland with sortMode auto
on a case search, the directive sent is date, not relevance. The first
conjunct evaluates the code at that failing input; the second shows the
directive is date for every query and every options value. -/
theorem C1_sort_directive_always_date :
    (searchUrlParams maboQuery wCaseOpts).lookup kView = some kDate ∧
    (∀ (query : Str) (options : SearchOptions),
      (searchUrlParams query options).lookup kView = some kDate) := by
  refine ⟨rfl, fun query options => rfl⟩

/-- Claim C2: for every successful search call, every returned record's URL
excludes any journal or commentary path segment — no returned URL contains
the journals segment — regardless of the requested document kind. -/
theorem C2_journal_exclusion (query : Str) (options : SearchOptions)
    (response : Except AxiosError (List Entry)) (rs : List SearchResult) (r : SearchResult)
    (hok : searchAustLii query options response = Except.ok rs) (hr : r ∈ rs) :
    strIncludes r.url journalsSeg = false := by
  obtain ⟨e, hpe⟩ := mem_search_ok_inv hok hr
  obtain ⟨ht, hu, hf, hre⟩ := processEntry_eq_some hpe
  subst hre
  exact passesFilters_no_journals hf

/-- Witness for C2 at a concrete case search over one Mabo entry. -/
theorem C2_journal_exclusion_witness :
    strIncludes wResult.url journalsSeg = false :=
  C2_journal_exclusion maboQuery wCaseOpts (Except.ok [wEntry]) [wResult] wResult
    (by rfl) (by simp)

/-- Claim C3: for every case search every returned URL contains a
case-database path segment, for every legislation search every returned
URL contains a legislation-database path segment, and every returned
record's kind field equals the requested kind. -/
theorem C3_kind_consistency (query : Str) (options : SearchOptions)
    (response : Except AxiosError (List Entry)) (rs : List SearchResult) (r : SearchResult)
    (hok : searchAustLii query options response = Except.ok rs) (hr : r ∈ rs) :
    r.type = options.type ∧
    (options.type = DocKind.caseDoc → strIncludes r.url casesSeg = true) ∧
    (options.type = DocKind.legislationDoc → strIncludes r.url legisSeg = true) := by
  obtain ⟨e, hpe⟩ := mem_search_ok_inv hok hr
  obtain ⟨ht, hu, hf, hre⟩ := processEntry_eq_some hpe
  subst hre
  exact ⟨rfl, fun hk => passesFilters_case hf hk, fun hk => passesFilters_legis hf hk⟩

/-- Witness for C3 at a concrete case search over one Mabo entry. -/
theorem C3_kind_consistency_witness :
    wResult.type = wCaseOpts.type ∧ strIncludes wResult.url casesSeg = true :=
  ⟨(C3_kind_consistency maboQuery wCaseOpts (Except.ok [wEntry]) [wResult] wResult
      (by rfl) (by simp)).1,
   (C3_kind_consistency maboQuery wCaseOpts (Except.ok [wEntry]) [wResult] wResult
      (by rfl) (by simp)).2.1 (by rfl)⟩

/-- Claim C4: every successful search returns at most limit records, with
limit defaulting to 10 when absent, taken from the parsed listing in
listing order, as a prefix, without re-sorting. -/
theorem C4_truncation (query : Str) (options : SearchOptions)
    (entries : List Entry) (rs : List SearchResult)
    (hok : searchAustLii query options (Except.ok entries) = Except.ok rs) :
    rs = (parseResults options entries).take ((options.limit).getD 10) ∧
    rs.length ≤ (options.limit).getD 10 := by
  have h := searchAustLii_ok_eq hok
  refine ⟨h, ?_⟩
  rw [h, List.length_take]
  exact min_le_left _ _

/-- Witness for C4: a search with no explicit limit over twelve copies of
the Mabo entry returns exactly the default ten records. -/
theorem C4_truncation_witness :
    (searchAustLii maboQuery wCaseOpts
        (Except.ok (List.replicate 12 wEntry)) = Except.ok (List.replicate 10 wResult)) ∧
    (List.replicate 10 wResult).length ≤ 10 :=
  ⟨by rfl,
   (C4_truncation maboQuery wCaseOpts (List.replicate 12 wEntry)
      (List.replicate 10 wResult) (by rfl)).2⟩

/-- Claim C5: a returned record's year is present exactly when its neutral
citation is present, and every present neutral citation is a substring of
the record's title of the shape bracket, four-digit year, bracket,
whitespace, a non-empty uppercase court code, whitespace, a non-empty
number, with the record's year equal to the four digits inside the
brackets. -/
theorem C5_citation_format (query : Str) (options : SearchOptions)
    (response : Except AxiosError (List Entry)) (rs : List SearchResult) (r : SearchResult)
    (hok : searchAustLii query options response = Except.ok rs) (hr : r ∈ rs) :
    (r.year.isSome = r.neutralCitation.isSome) ∧
    (∀ m, r.neutralCitation = some m →
      substrOf m r.title ∧
      ∃ y, r.year = some y ∧
        ∃ ws1 code ws2 num,
          m = ('[' :: y) ++ (']' :: (ws1 ++ code ++ ws2 ++ num)) ∧
          y.length = 4 ∧ (∀ c ∈ y, digitB c = true) ∧
          (∀ c ∈ ws1, jsSpace c = true) ∧
          code ≠ [] ∧ (∀ c ∈ code, upperB c = true) ∧
          (∀ c ∈ ws2, jsSpace c = true) ∧
          num ≠ [] ∧ (∀ c ∈ num, digitB c = true)) := by
  obtain ⟨e, hpe⟩ := mem_search_ok_inv hok hr
  obtain ⟨ht, hu, hf, hre⟩ := processEntry_eq_some hpe
  subst hre
  constructor
  · simp only [mkResult]
    cases findCitation (jsTrim e.title) <;> rfl
  · intro m hm
    simp only [mkResult, Option.map_eq_some'] at hm
    obtain ⟨⟨m', y⟩, hfc, hm'⟩ := hm
    simp only at hm'
    subst hm'
    obtain ⟨hsub, ws1, code, ws2, num, hshape, h4, hdig, hws1, hc, hup, hws2, hn, hnd⟩ :=
      findCitation_eq_some hfc
    refine ⟨hsub, y, ?_, ws1, code, ws2, num, hshape, h4, hdig, hws1, hc, hup, hws2, hn, hnd⟩
    simp [mkResult, hfc]

/-- Witness for C5 at the concrete Mabo record, whose neutral citation is
present. -/
theorem C5_citation_format_witness :
    wResult.year.isSome = wResult.neutralCitation.isSome ∧
    (wResult.neutralCitation = some "[1992] HCA 23".data →
      substrOf "[1992] HCA 23".data wResult.title ∧
      ∃ y, wResult.year = some y ∧
        ∃ ws1 code ws2 num,
          "[1992] HCA 23".data = ('[' :: y) ++ (']' :: (ws1 ++ code ++ ws2 ++ num)) ∧
          y.length = 4 ∧ (∀ c ∈ y, digitB c = true) ∧
          (∀ c ∈ ws1, jsSpace c = true) ∧
          code ≠ [] ∧ (∀ c ∈ code, upperB c = true) ∧
          (∀ c ∈ ws2, jsSpace c = true) ∧
          num ≠ [] ∧ (∀ c ∈ num, digitB c = true)) :=
  ⟨(C5_citation_format maboQuery wCaseOpts (Except.ok [wEntry]) [wResult] wResult
      (by rfl) (by simp)).1,
   (C5_citation_format maboQuery wCaseOpts (Except.ok [wEntry]) [wResult] wResult
      (by rfl) (by simp)).2 ("[1992] HCA 23".data)⟩

/-- Claim C6: searchAustLii fails exactly when the transport retrieval
fails, the failure wraps the underlying cause message behind the AustLII
search failed prefix, and every retrieved listing, however empty or
unparsable its entries, produces a successful (possibly empty) result. -/
theorem C6_error_iff_transport (query : Str) (options : SearchOptions)
    (response : Except AxiosError (List Entry)) :
    ((∃ msg, searchAustLii query options response = Except.error msg) ↔
      (∃ e, response = Except.error e)) ∧
    (∀ e, response = Except.error e →
      searchAustLii query options response = Except.error (searchFailedPre ++ e.message)) ∧
    (∀ entries, response = Except.ok entries →
      searchAustLii query options response =
        Except.ok ((parseResults options entries).take ((options.limit).getD 10))) := by
  cases response with
  | error e =>
    refine ⟨⟨fun _ => ⟨e, rfl⟩, fun _ => ⟨searchFailedPre ++ e.message, rfl⟩⟩, ?_, ?_⟩
    · intro e' he
      injection he with he
      subst he
      rfl
    · intro entries he
      exact absurd he (by simp)
  | ok entries =>
    refine ⟨⟨?_, ?_⟩, ?_, ?_⟩
    · rintro ⟨msg, hmsg⟩
      exact absurd hmsg (by simp [searchAustLii])
    · rintro ⟨e, he⟩
      exact absurd he (by simp)
    · intro e he
      exact absurd he (by simp)
    · intro entries' he
      injection he with he
      subst he
      rfl

/-- Witness for C6: a concrete transport failure surfaces as the wrapped
error, and a concrete empty listing yields an empty successful result. -/
theorem C6_error_iff_transport_witness :
    searchAustLii maboQuery wCaseOpts (Except.error wAxiosError) =
      Except.error (searchFailedPre ++ wAxiosError.message) ∧
    searchAustLii maboQuery wCaseOpts (Except.ok []) = Except.ok [] :=
  ⟨(C6_error_iff_transport maboQuery wCaseOpts (Except.error wAxiosError)).2.1
      wAxiosError rfl,
   (C6_error_iff_transport maboQuery wCaseOpts (Except.ok [])).2.2 [] rfl⟩

/-- Claim C7: every emitted record has a non-empty title and a non-empty
URL that begins with http, a relative listing href having been made
absolute against the classic AustLII base host. -/
theorem C7_absolute_urls (query : Str) (options : SearchOptions)
    (response : Except AxiosError (List Entry)) (rs : List SearchResult) (r : SearchResult)
    (hok : searchAustLii query options response = Except.ok rs) (hr : r ∈ rs) :
    r.title ≠ [] ∧ r.url ≠ [] ∧ startsWithStr r.url httpPre = true := by
  obtain ⟨e, hpe⟩ := mem_search_ok_inv hok hr
  obtain ⟨ht, hu, hf, hre⟩ := processEntry_eq_some hpe
  subst hre
  exact ⟨ht, hu, entryUrl_startsWith_http hu⟩

/-- Witness for C7 at the concrete Mabo record, built from a relative
listing href. -/
theorem C7_absolute_urls_witness :
    wResult.title ≠ [] ∧ wResult.url ≠ [] ∧ startsWithStr wResult.url httpPre = true :=
  C7_absolute_urls maboQuery wCaseOpts (Except.ok [wEntry]) [wResult] wResult
    (by rfl) (by simp)

/-- Concrete PDF fixture: a scanned PDF whose direct text layer is nearly
empty and whose OCR run recovers text. -/
def wPdfUrl : Str := "http://www.austlii.edu.au/scan.pdf".data

def wOcrWorld : FetchWorld :=
  { reachable := true
    declaredPdf := false
    htmlText := []
    pdfDirectText := "short".data
    ocrResult := Except.ok ["recovered page one ".data, "recovered page two".data] }

def wOcrDoc : FetchResponse :=
  { text := "recovered page one recovered page two".data
    contentType := pdfTypeStr
    sourceUrl := wPdfUrl
    ocrUsed := true
    metadata := none }

def wBadUrl : Str := "austlii.edu.au/cases".data

/-- Claim C8 (spec-modelled, the full fetcher implementation being absent
from the sources): for every PDF whose direct text-layer extraction yields
fewer than the hundred-character sufficiency floor of non-whitespace
characters, a successful fetchDocumentText used the OCR fallback and its
text is non-empty; for every PDF whose text layer meets the floor, the
result is the directly extracted text with the OCR flag off. -/
theorem C8_ocr_trigger (url : Str) (w : FetchWorld) (doc : FetchResponse)
    (hok : fetchDocumentText url w = Except.ok doc)
    (hpdf : (w.declaredPdf || endsWithStr (lowerStr url) pdfSuffix) = true) :
    (nonWsCount w.pdfDirectText < ocrMinTextChars →
      doc.ocrUsed = true ∧ doc.text ≠ []) ∧
    (ocrMinTextChars ≤ nonWsCount w.pdfDirectText →
      doc.ocrUsed = false ∧ doc.text = w.pdfDirectText) := by
  simp only [fetchDocumentText] at hok
  split_ifs at hok with h1 h2 h3
  · cases hocr : w.ocrResult with
    | error m =>
      rw [hocr] at hok
      exact absurd hok (by simp)
    | ok pages =>
      rw [hocr] at hok
      simp only at hok
      split_ifs at hok with h5
      injection hok with hok
      subst hok
      constructor
      · intro hlt
        exact ⟨rfl, h5⟩
      · intro hge
        exact absurd h3 (by omega)
  · injection hok with hok
    subst hok
    constructor
    · intro hlt
      exact absurd hlt h3
    · intro hge
      exact ⟨rfl, rfl⟩

/-- Witness for C8: the scanned-PDF fixture is classified as PDF, its
direct text layer is below the floor, and the returned document is the
non-empty OCR text with the OCR flag on. -/
theorem C8_ocr_trigger_witness :
    (wOcrWorld.declaredPdf || endsWithStr (lowerStr wPdfUrl) pdfSuffix) = true ∧
    nonWsCount wOcrWorld.pdfDirectText < ocrMinTextChars ∧
    (wOcrDoc.ocrUsed = true ∧ wOcrDoc.text ≠ []) :=
  ⟨by rfl, by decide,
   (C8_ocr_trigger wPdfUrl wOcrWorld wOcrDoc (by rfl) (by rfl)).1 (by decide)⟩

/-- Claim C9 (spec-modelled, the full fetcher implementation being absent
from the sources): a malformed URL is rejected with a DocumentFetchError,
an unreachable resource or non-2xx response raises the same error kind,
and every successfully returned document has contentType html or pdf and
echoes the requested URL unchanged as sourceUrl. -/
theorem C9_fetch_validation (url : Str) (w : FetchWorld) :
    (isAbsoluteUrl url = false →
      fetchDocumentText url w = Except.error (FetchError.documentFetchError badUrlMsg)) ∧
    (isAbsoluteUrl url = true → w.reachable = false →
      fetchDocumentText url w = Except.error (FetchError.documentFetchError unreachableMsg)) ∧
    (∀ doc, fetchDocumentText url w = Except.ok doc →
      (doc.contentType = htmlTypeStr ∨ doc.contentType = pdfTypeStr) ∧
      doc.sourceUrl = url) := by
  refine ⟨?_, ?_, ?_⟩
  · intro h
    simp [fetchDocumentText, h]
  · intro h1 h2
    simp [fetchDocumentText, h1, h2]
  · intro doc hok
    simp only [fetchDocumentText] at hok
    split_ifs at hok with h1 h2 h3 h4
    · cases hocr : w.ocrResult with
      | error m =>
        rw [hocr] at hok
        exact absurd hok (by simp)
      | ok pages =>
        rw [hocr] at hok
        simp only at hok
        split_ifs at hok with h5
        injection hok with hok
        subst hok
        exact ⟨Or.inr rfl, rfl⟩
    · injection hok with hok
      subst hok
      exact ⟨Or.inr rfl, rfl⟩
    · injection hok with hok
      subst hok
      exact ⟨Or.inl rfl, rfl⟩

/-- Witness for C9: the scheme-less fixture URL is rejected with a
DocumentFetchError, and the concrete successful fetch has contentType pdf
and echoes its URL. -/
theorem C9_fetch_validation_witness :
    fetchDocumentText wBadUrl wOcrWorld =
      Except.error (FetchError.documentFetchError badUrlMsg) ∧
    ((wOcrDoc.contentType = htmlTypeStr ∨ wOcrDoc.contentType = pdfTypeStr) ∧
      wOcrDoc.sourceUrl = wPdfUrl) :=
  ⟨(C9_fetch_validation wBadUrl wOcrWorld).1 (by rfl),
   (C9_fetch_validation wPdfUrl wOcrWorld).2.2 wOcrDoc (by rfl)⟩

/-- Counterexample to claim C10 as stated: a legislation search over a
listing entry whose URL contains both a legislation-database segment and a
case-database jurisdiction segment emits a legislation record that does
carry a jurisdiction. -/
theorem C10_legislation_jurisdiction_counterexample :
    searchAustLii legQuery wLegisOpts (Except.ok [wLegisEntry]) =
      Except.ok [wLegisResult] ∧
    wLegisResult.type = DocKind.legislationDoc ∧
    wLegisResult.jurisdiction = some vicStr :=
  ⟨rfl, rfl, rfl⟩

/-- Claim C10 as amended: the jurisdiction option has no effect — options
differing only in the jurisdiction field give the identical index request
(buildSearchParams ignoring the options, mask_path always undefined) and,
on the same index response, identical records; and the per-record
jurisdiction field is extracted only from URLs containing an
/au/cases/(code)/ path segment — so a legislation record carries a
jurisdiction only when its URL also contains such a case-path segment. -/
theorem C10_jurisdiction_noninterference (query : Str) (j1 j2 : Option JurisdictionOpt)
    (l : Option Nat) (k : DocKind) (sb : Option SortMode)
    (response : Except AxiosError (List Entry)) :
    searchUrlParams query ⟨j1, l, k, sb⟩ = searchUrlParams query ⟨j2, l, k, sb⟩ ∧
    (buildSearchParams query ⟨j1, l, k, sb⟩).mask_path = none ∧
    searchAustLii query ⟨j1, l, k, sb⟩ response = searchAustLii query ⟨j2, l, k, sb⟩ response ∧
    (∀ rs r j, searchAustLii query ⟨j1, l, k, sb⟩ response = Except.ok rs → r ∈ rs →
      r.jurisdiction = some j →
      j ∈ jurisdictionCodes ∧
      strIncludes (lowerStr r.url) (auCasesSeg ++ j ++ slashChar) = true) := by
  refine ⟨rfl, rfl, rfl, ?_⟩
  intro rs r j hok hr hj
  obtain ⟨e, hpe⟩ := mem_search_ok_inv hok hr
  obtain ⟨ht, hu, hf, hre⟩ := processEntry_eq_some hpe
  subst hre
  exact extractJurisdiction_eq_some hj

/-- Witness for the amended C10 at the concrete fixture: the extracted
code vic is one of the known jurisdiction codes and the record's lowered
URL contains the /au/cases/vic/ segment. -/
theorem C10_jurisdiction_noninterference_witness :
    vicStr ∈ jurisdictionCodes ∧
    strIncludes (lowerStr wLegisResult.url) (auCasesSeg ++ vicStr ++ slashChar) = true :=
  (C10_jurisdiction_noninterference legQuery (some JurisdictionOpt.vic)
      (some JurisdictionOpt.cth) none DocKind.legislationDoc none
      (Except.ok [wLegisEntry])).2.2.2
    [wLegisResult] wLegisResult vicStr (by rfl) (by simp) (by rfl)
